import Mathlib

/-!
Verification of the FIO ledger-synchronization engine
(src/fio/fioEngine.js of edge-currency-accountbased) against its
natural-language specification.

The engine's methods are embedded as pure Lean functions over an explicit
`EngineState`; remote-call outcomes (endpoint responses, fetched fees)
are passed as arguments.  The decimal-string arithmetic of the external
`biggystring` library (`bns`) is modelled exactly (spec section 6: exact
add / sub / compare over decimal-string amounts).
-/

namespace FioEngine

/-! ## Decimal-string arithmetic (model of the external biggystring `bns`) -/

/-- An exact decimal value: `num / 10 ^ exp`. -/
structure Dec where
  num : Int
  exp : Nat
deriving DecidableEq, Repr

/-- The character for the decimal digit `d` (0-9). -/
def digitChar (d : Nat) : Char := Char.ofNat (48 + d)

/-- Numeric value of a decimal digit character. -/
def digitVal (c : Char) : Nat := c.toNat - 48

/-- Whether `c` is one of the characters 0-9. -/
def isDigitCh (c : Char) : Bool := decide (48 ≤ c.toNat) && decide (c.toNat ≤ 57)

/-- Digits of `n` in base 10, most significant first; `fuel` bounds recursion. -/
def natToDigitsFuel : Nat → Nat → List Char
  | 0, _ => []
  | fuel + 1, n =>
    if n < 10 then [digitChar n]
    else natToDigitsFuel fuel (n / 10) ++ [digitChar (n % 10)]

/-- Digits of `n` in base 10, most significant first. -/
def natToDigits (n : Nat) : List Char := natToDigitsFuel (n + 1) n

/-- The decimal string for a natural number (model of JS number-to-string). -/
def numToString (n : Nat) : String := String.mk (natToDigits n)

/-- Left-pad a digit list with zeros up to length `len`. -/
def padLeftZeros (len : Nat) (ds : List Char) : List Char :=
  List.replicate (len - ds.length) '0' ++ ds

/-- Render an exact decimal value as a decimal string. -/
def printDec (d : Dec) : String :=
  let ds := natToDigits d.num.natAbs
  let signChars : List Char := if d.num < 0 then ['-'] else []
  if d.exp = 0 then String.mk (signChars ++ ds)
  else
    let padded := padLeftZeros (d.exp + 1) ds
    let ip := padded.take (padded.length - d.exp)
    let fp := padded.drop (padded.length - d.exp)
    String.mk (signChars ++ ip ++ '.' :: fp)

/-- Value of a digit list, most significant first. -/
def digitsToNat (cs : List Char) : Nat := cs.foldl (fun a c => a * 10 + digitVal c) 0

/-- Read an unsigned integer from a nonempty all-digit list. -/
def readNat (cs : List Char) : Option Nat :=
  if cs ≠ [] ∧ cs.all isDigitCh then some (digitsToNat cs) else none

/-- Split a character list at the first dot, if any. -/
def splitOnDot : List Char → List Char × Option (List Char)
  | [] => ([], none)
  | c :: rest =>
    if c = '.' then ([], some rest)
    else
      let r := splitOnDot rest
      (c :: r.1, r.2)

/-- Read an unsigned decimal: result is (scaled value, number of fraction digits). -/
def readUnsignedDec (cs : List Char) : Option (Nat × Nat) :=
  let s := splitOnDot cs
  match s.2 with
  | none =>
    match readNat s.1 with
    | some n => some (n, 0)
    | none => none
  | some fp =>
    match readNat s.1, readNat fp with
    | some i, some f => some (i * 10 ^ fp.length + f, fp.length)
    | _, _ => none

/-- Read an optionally signed decimal string (as a character list). -/
def readDecList : List Char → Option Dec
  | [] => none
  | c :: rest =>
    if c = '-' then (readUnsignedDec rest).map (fun p => ⟨-(p.1 : Int), p.2⟩)
    else (readUnsignedDec (c :: rest)).map (fun p => ⟨(p.1 : Int), p.2⟩)

/-- Read an optionally signed decimal string. -/
def readDec (s : String) : Option Dec := readDecList s.data

/-- Exact equality of two decimal values (cross-multiplied). -/
def decValEq (x y : Dec) : Bool :=
  decide (x.num * (10 : Int) ^ y.exp = y.num * (10 : Int) ^ x.exp)

/-- Exact strict order of two decimal values (cross-multiplied). -/
def decValGt (x y : Dec) : Bool :=
  decide (y.num * (10 : Int) ^ x.exp < x.num * (10 : Int) ^ y.exp)

/-- Exact sum of two decimal values at the common scale. -/
def decAdd (x y : Dec) : Dec :=
  let m := max x.exp y.exp
  ⟨x.num * (10 : Int) ^ (m - x.exp) + y.num * (10 : Int) ^ (m - y.exp), m⟩

/-- Exact difference of two decimal values at the common scale. -/
def decSub (x y : Dec) : Dec :=
  let m := max x.exp y.exp
  ⟨x.num * (10 : Int) ^ (m - x.exp) - y.num * (10 : Int) ^ (m - y.exp), m⟩

/-- Model of `bns.eq`: exact decimal equality of two decimal strings
(formatting-insensitive); `false` on undecodable input (biggystring throws). -/
def bnsEq (a b : String) : Bool :=
  match readDec a, readDec b with
  | some x, some y => decValEq x y
  | _, _ => false

/-- Model of `bns.gt`: exact decimal comparison; `none` models the biggystring
exception on undecodable input. -/
def bnsGt (a b : String) : Option Bool :=
  match readDec a, readDec b with
  | some x, some y => some (decValGt x y)
  | _, _ => none

/-- Model of `bns.add`: exact decimal addition of two decimal strings. -/
def bnsAdd (a b : String) : Option String :=
  match readDec a, readDec b with
  | some x, some y => some (printDec (decAdd x y))
  | _, _ => none

/-- Model of `bns.sub`: exact decimal subtraction of two decimal strings. -/
def bnsSub (a b : String) : Option String :=
  match readDec a, readDec b with
  | some x, some y => some (printDec (decSub x y))
  | _, _ => none

/-- Model of `bns.abs`: absolute value of a decimal string. -/
def bnsAbs (a : String) : Option String :=
  (readDec a).map (fun x => printDec ⟨(x.num.natAbs : Int), x.exp⟩)

/-! ### Round-trip lemmas for integer-valued decimal strings -/

lemma natToDigitsFuel_irrel (f1 : Nat) :
    ∀ (f2 n : Nat), n < f1 → n < f2 → natToDigitsFuel f1 n = natToDigitsFuel f2 n := by
  induction f1 with
  | zero => intro f2 n h1 _; omega
  | succ g ih =>
    intro f2 n h1 h2
    cases f2 with
    | zero => omega
    | succ h =>
      by_cases hn : n < 10
      · simp [natToDigitsFuel, hn]
      · have hdiv : n / 10 < n := Nat.div_lt_self (by omega) (by omega)
        have hg : n / 10 < g := by omega
        have hh : n / 10 < h := by omega
        simp only [natToDigitsFuel, if_neg hn]
        rw [ih h (n / 10) hg hh]

lemma natToDigits_small {n : Nat} (h : n < 10) : natToDigits n = [digitChar n] := by
  simp [natToDigits, natToDigitsFuel, h]

lemma natToDigits_step {n : Nat} (h : 10 ≤ n) :
    natToDigits n = natToDigits (n / 10) ++ [digitChar (n % 10)] := by
  have hdiv : n / 10 < n := Nat.div_lt_self (by omega) (by omega)
  have h1 : natToDigitsFuel (n + 1) n = natToDigitsFuel n (n / 10) ++ [digitChar (n % 10)] := by
    simp [natToDigitsFuel, if_neg (by omega : ¬ n < 10)]
  calc natToDigits n = natToDigitsFuel n (n / 10) ++ [digitChar (n % 10)] := h1
    _ = natToDigitsFuel (n / 10 + 1) (n / 10) ++ [digitChar (n % 10)] := by
        rw [natToDigitsFuel_irrel n (n / 10 + 1) (n / 10) hdiv (Nat.lt_succ_self _)]

lemma digitVal_digitChar {d : Nat} (h : d < 10) : digitVal (digitChar d) = d := by
  interval_cases d <;> decide

lemma isDigitCh_digitChar {d : Nat} (h : d < 10) : isDigitCh (digitChar d) = true := by
  interval_cases d <;> decide

lemma isDigitCh_dash : isDigitCh '-' = false := by decide

lemma isDigitCh_dot : isDigitCh '.' = false := by decide

lemma isDigitCh_ne_dash {c : Char} (h : isDigitCh c = true) : c ≠ '-' := by
  intro hc; subst hc; rw [isDigitCh_dash] at h; exact Bool.false_ne_true h

lemma isDigitCh_ne_dot {c : Char} (h : isDigitCh c = true) : c ≠ '.' := by
  intro hc; subst hc; rw [isDigitCh_dot] at h; exact Bool.false_ne_true h

lemma readNat_cons_nondigit {c : Char} (h : isDigitCh c = false) (l : List Char) :
    readNat (c :: l) = none := by
  simp [readNat, List.all_cons, h]

lemma natToDigits_ne_nil (n : Nat) : natToDigits n ≠ [] := by
  by_cases h : n < 10
  · rw [natToDigits_small h]; simp
  · rw [natToDigits_step (by omega)]; simp

lemma natToDigits_all_digits (n : Nat) : (natToDigits n).all isDigitCh = true := by
  induction n using Nat.strong_induction_on with
  | _ n ih =>
    by_cases h : n < 10
    · rw [natToDigits_small h]
      simp [List.all_eq_true]
      exact isDigitCh_digitChar h
    · rw [natToDigits_step (by omega)]
      have hdiv : n / 10 < n := Nat.div_lt_self (by omega) (by omega)
      have h1 := ih (n / 10) hdiv
      have h2 : isDigitCh (digitChar (n % 10)) = true :=
        isDigitCh_digitChar (Nat.mod_lt n (by omega))
      simp [List.all_append, List.all_cons, h1, h2]

lemma digitsToNat_concat (cs : List Char) (c : Char) :
    digitsToNat (cs ++ [c]) = digitsToNat cs * 10 + digitVal c := by
  simp [digitsToNat, List.foldl_append]

lemma digitsToNat_natToDigits (n : Nat) : digitsToNat (natToDigits n) = n := by
  induction n using Nat.strong_induction_on with
  | _ n ih =>
    by_cases h : n < 10
    · rw [natToDigits_small h]
      simp [digitsToNat, digitVal_digitChar h]
    · rw [natToDigits_step (by omega), digitsToNat_concat]
      have hdiv : n / 10 < n := Nat.div_lt_self (by omega) (by omega)
      rw [ih (n / 10) hdiv, digitVal_digitChar (Nat.mod_lt n (by omega))]
      omega

lemma readNat_natToDigits (n : Nat) : readNat (natToDigits n) = some n := by
  simp [readNat, natToDigits_ne_nil, natToDigits_all_digits, digitsToNat_natToDigits]

lemma splitOnDot_no_dot (cs : List Char) (h : cs.all isDigitCh = true) :
    splitOnDot cs = (cs, none) := by
  induction cs with
  | nil => rfl
  | cons c rest ih =>
    simp only [List.all_cons, Bool.and_eq_true] at h
    simp [splitOnDot, isDigitCh_ne_dot h.1, ih h.2]

lemma readUnsignedDec_natToDigits (n : Nat) :
    readUnsignedDec (natToDigits n) = some (n, 0) := by
  simp [readUnsignedDec, splitOnDot_no_dot _ (natToDigits_all_digits n),
    readNat_natToDigits]

lemma natToDigits_head_digit (n : Nat) :
    ∃ c rest, natToDigits n = c :: rest ∧ isDigitCh c = true := by
  have hne := natToDigits_ne_nil n
  have hall := natToDigits_all_digits n
  cases hd : natToDigits n with
  | nil => exact absurd hd hne
  | cons c rest =>
    rw [hd] at hall
    simp only [List.all_cons, Bool.and_eq_true] at hall
    exact ⟨c, rest, rfl, hall.1⟩

/-- Reading back the rendering of an integer-valued decimal. -/
lemma readDec_printDec_int (i : Int) : readDec (printDec ⟨i, 0⟩) = some ⟨i, 0⟩ := by
  obtain ⟨c, rest, hd, hdig⟩ := natToDigits_head_digit i.natAbs
  by_cases hneg : i < 0
  · have hpr : printDec ⟨i, 0⟩ = String.mk ('-' :: natToDigits i.natAbs) := by
      simp [printDec, hneg]
    rw [hpr]
    show readDecList ('-' :: natToDigits i.natAbs) = some ⟨i, 0⟩
    have habs : ((i.natAbs : Int)) = -i := Int.ofNat_natAbs_of_nonpos (le_of_lt hneg)
    simp [readDecList, readUnsignedDec_natToDigits, habs]
  · have hpr : printDec ⟨i, 0⟩ = String.mk (natToDigits i.natAbs) := by
      simp [printDec, hneg]
    rw [hpr]
    show readDecList (natToDigits i.natAbs) = some ⟨i, 0⟩
    have habs : ((i.natAbs : Int)) = i := Int.natAbs_of_nonneg (not_lt.mp hneg)
    rw [hd]
    rw [readDecList, if_neg (by exact fun hcc => isDigitCh_ne_dash hdig hcc), ← hd,
      readUnsignedDec_natToDigits]
    simp [habs]

/-- Reading the rendering of a natural number. -/
lemma readDec_numToString (n : Nat) : readDec (numToString n) = some ⟨(n : Int), 0⟩ := by
  have h := readDec_printDec_int (n : Int)
  have h0 : ¬ ((n : Int) < 0) := not_lt.mpr (Int.natCast_nonneg n)
  have hp : printDec ⟨(n : Int), 0⟩ = numToString n := by
    simp [printDec, numToString, Int.natAbs_ofNat, h0]
  rwa [hp] at h

lemma readUnsignedDec_cons_dash (rest : List Char) :
    readUnsignedDec ('-' :: rest) = none := by
  rw [readUnsignedDec]
  have hs : splitOnDot ('-' :: rest) = ('-' :: (splitOnDot rest).1, (splitOnDot rest).2) := by
    rw [splitOnDot]
    simp
  rw [hs]
  rcases h2 : (splitOnDot rest).2 with _ | fp
  · simp [readNat_cons_nondigit isDigitCh_dash]
  · simp [readNat_cons_nondigit isDigitCh_dash]

/-- A string whose unsigned reading succeeds cannot begin with a minus sign,
so its signed reading agrees with the unsigned one. -/
lemma readDecList_of_readUnsignedDec {cs : List Char} {p : Nat × Nat}
    (h : readUnsignedDec cs = some p) : readDecList cs = some ⟨(p.1 : Int), p.2⟩ := by
  cases cs with
  | nil => simp [readUnsignedDec, splitOnDot, readNat] at h
  | cons c rest =>
    have hc : c ≠ '-' := by
      intro hcc; subst hcc
      rw [readUnsignedDec_cons_dash] at h
      exact Option.noConfusion h
    simp [readDecList, hc, h]

/-! ## Data model

`FioTx` mirrors `FioTransactionSuperNode` (fioEngine.js lines 26-39); the JS
`block_time` string reaches the engine only through the runtime primitive
`Date.parse`, so the field is carried here already parsed, in milliseconds. -/

structure FioTx where
  block_height : Int
  block_time_ms : Int
  payer : String
  payee : String
  payee_public_key : String
  transfer_amount : Nat
  fee_amount : Nat
  transaction_total : Nat
  notes : String
  action : String
  tpid : String
  transaction_id : String
deriving DecidableEq, Repr

/-- The `data` object of the transfer action placed in
`otherParams.transactionJson` by `makeSpend` (lines 651-670). -/
structure FioActionData where
  fromKey : String
  toKey : String
  quantity : String
  memo : String
deriving DecidableEq, Repr

/-- EdgeTransaction as built by this engine.  `otherParamsTransactionJson = none`
models an `otherParams` object without a `transactionJson` field. -/
structure EdgeTransaction where
  txid : String
  date : Int
  currencyCode : String
  blockHeight : Int
  nativeAmount : String
  networkFee : String
  parentNetworkFee : Option String
  ourReceiveAddresses : List String
  signedTx : String
  otherParamsTransactionJson : Option FioActionData
  metadataName : String
  metadataNotes : String
deriving DecidableEq, Repr

/-- A named FIO address record of `otherData.fioAddresses`. -/
structure FioNameRec where
  name : String
  expiration : String
deriving DecidableEq, Repr

/-- A FIO domain record of `otherData.fioDomains`. -/
structure FioDomainRec where
  name : String
  expiration : String
  isPublic : Bool
deriving DecidableEq, Repr

/-- Callbacks emitted to the wallet-core collaborator, newest first. -/
inductive EngineEvent where
  | balanceChanged (currencyCode amount : String)
  | blockHeightChanged (height : Int)
deriving DecidableEq, Repr

/-- `walletLocalData.otherData` of the FIO engine. -/
structure OtherData where
  highestTxHeight : Int
  fioAddresses : List FioNameRec
  fioDomains : List FioDomainRec
  feeTransactions : List EdgeTransaction
deriving DecidableEq, Repr

/-- The persisted `walletLocalData` slice the engine mutates. -/
structure WalletLocalData where
  blockHeight : Int
  totalBalances : List (String × String)
  otherData : OtherData
deriving DecidableEq, Repr

/-- In-memory engine state.  `events` is the log of emitted callbacks (newest
first) and `addTxLog` the log of `(currencyCode, txid)` pairs passed to
`addTransaction`, in call order; both are observation logs used to state the
spec's properties. -/
structure EngineState where
  walletLocalData : WalletLocalData
  walletLocalDataDirty : Bool
  transactionList : List (String × List EdgeTransaction)
  transactionsChangedArray : List EdgeTransaction
  tokenCheckBalanceStatus : List (String × Nat)
  events : List EngineEvent
  addTxLog : List (String × String)
deriving DecidableEq, Repr

/-- Association-list lookup (model of JS object property access). -/
def alookup {β : Type} (k : String) : List (String × β) → Option β
  | [] => none
  | (k', v) :: rest => if k' = k then some v else alookup k rest

/-- Association-list update (model of JS object property assignment). -/
def aset {β : Type} (k : String) (v : β) : List (String × β) → List (String × β)
  | [] => [(k, v)]
  | (k', v') :: rest => if k' = k then (k', v) :: rest else (k', v') :: aset k v rest

/-- The committed history watermark `otherData.highestTxHeight`. -/
def watermark (st : EngineState) : Int :=
  st.walletLocalData.otherData.highestTxHeight

/-- The transaction list of a currency (`this.transactionList[currencyCode]`). -/
def getTxList (currencyCode : String) (st : EngineState) : List EdgeTransaction :=
  (alookup currencyCode st.transactionList).getD []

/-! ## Base-engine operations used by the FIO engine -/

/-- Modelled from the spec: `CurrencyEngine.addTransaction` lives in
`common/engine.js`, which is not under src/; spec section 4.5 describes it as
"append, mark dirty, queue a transactions-changed notification".  The
invocation is also recorded in `addTxLog`. -/
def addTransaction (currencyCode : String) (tx : EdgeTransaction) (st : EngineState) :
    EngineState :=
  { st with
    transactionList :=
      aset currencyCode (getTxList currencyCode st ++ [tx]) st.transactionList,
    walletLocalDataDirty := true,
    transactionsChangedArray := st.transactionsChangedArray ++ [tx],
    addTxLog := st.addTxLog ++ [(currencyCode, tx.txid)] }

/-- Index of the first transaction with the given txid, or -1. -/
def findTxIdx (txid : String) : List EdgeTransaction → Int
  | [] => -1
  | tx :: rest =>
    if tx.txid = txid then 0
    else if findTxIdx txid rest = -1 then -1 else findTxIdx txid rest + 1

/-- Modelled from the spec: `CurrencyEngine.findTransaction` lives in
`common/engine.js`, which is not under src/; spec section 4.5:
"findTransaction(currencyCode, txid) → index or not-found". -/
def findTransaction (currencyCode txid : String) (st : EngineState) : Int :=
  findTxIdx txid (getTxList currencyCode st)

/-- Modelled from the spec: `CurrencyEngine.clearBlockchainCache` lives in
`common/engine.js`, which is not under src/; spec section 4.5 `reset()`
"clears height, balances-remain, ... auxiliary lists cleared", and section 3:
transactions are "never deleted except by the same reset". -/
def superClearBlockchainCache (st : EngineState) : EngineState :=
  { st with
    walletLocalData :=
      { st.walletLocalData with
        blockHeight := 0,
        otherData :=
          { st.walletLocalData.otherData with fioAddresses := [], fioDomains := [] } },
    transactionList := [],
    transactionsChangedArray := [] }

/-! ## Engine methods (fioEngine.js) -/

/-- `updateBalance` (lines 256-268).  The trailing
`updateOnAddressesChecked()` call only recomputes the progress ratio reported
to the wallet core; it touches none of the state modelled here. -/
def updateBalance (st : EngineState) (tk : String) (balance : String) : EngineState :=
  let st1 :=
    if (alookup tk st.walletLocalData.totalBalances).isNone then
      { st with
        walletLocalData :=
          { st.walletLocalData with
            totalBalances := aset tk "0" st.walletLocalData.totalBalances } }
    else st
  let cached := (alookup tk st1.walletLocalData.totalBalances).getD "0"
  let st2 :=
    if !(bnsEq balance cached) then
      { st1 with
        walletLocalData :=
          { st1.walletLocalData with
            totalBalances := aset tk balance st1.walletLocalData.totalBalances },
        walletLocalDataDirty := true,
        events := EngineEvent.balanceChanged tk balance :: st1.events }
    else st1
  { st2 with tokenCheckBalanceStatus := aset tk 1 st2.tokenCheckBalanceStatus }

/-- `processTransaction` (lines 270-344): merge one remote history record,
returning the new state and the record's `block_height`. -/
def processTransaction (st : EngineState) (publicKey : String) (transfer : FioTx)
    (actor : String) : EngineState × Int :=
  let currencyCode := "FIO"
  if transfer.block_height ≤ st.walletLocalData.otherData.highestTxHeight then
    (st, transfer.block_height)
  else if transfer.action ≠ "trnsfiopubky" ∧ transfer.action ≠ "transfer" then
    (st, transfer.block_height)
  else if transfer.action = "trnsfiopubky" then
    let nativeAmount0 := numToString transfer.transfer_amount
    let actorSender := transfer.payer
    let memo := "Recipient Address: " ++ transfer.payee_public_key
    let pair : String × List String :=
      if transfer.payee_public_key = publicKey then
        (if actorSender = actor then "0" else nativeAmount0, [publicKey])
      else ("-" ++ nativeAmount0, [])
    let edgeTransaction : EdgeTransaction :=
      { txid := transfer.transaction_id,
        date := transfer.block_time_ms / 1000,
        currencyCode := currencyCode,
        blockHeight := if transfer.block_height > 0 then transfer.block_height else 0,
        nativeAmount := pair.1,
        networkFee := numToString transfer.fee_amount,
        parentNetworkFee := some "0",
        ourReceiveAddresses := pair.2,
        signedTx := "",
        otherParamsTransactionJson := none,
        metadataName := "",
        metadataNotes := memo }
    (addTransaction currencyCode edgeTransaction st, transfer.block_height)
  else
    let networkFee := numToString transfer.transfer_amount
    if findTransaction currencyCode transfer.transaction_id st > -1 then
      (st, transfer.block_height)
    else
      let edgeTransaction : EdgeTransaction :=
        { txid := transfer.transaction_id,
          date := transfer.block_time_ms / 1000,
          currencyCode := currencyCode,
          blockHeight := if transfer.block_height > 0 then transfer.block_height else 0,
          nativeAmount := "-" ++ networkFee,
          networkFee := "0",
          parentNetworkFee := none,
          ourReceiveAddresses := [],
          signedTx := "",
          otherParamsTransactionJson := none,
          metadataName := "FIO fee",
          metadataNotes := transfer.notes }
      (addTransaction currencyCode edgeTransaction st, transfer.block_height)

/-- Insert one transfer into a list sorted descending by `block_height`. -/
def insertDesc (t : FioTx) : List FioTx → List FioTx
  | [] => [t]
  | u :: rest =>
    if t.block_height ≤ u.block_height then u :: insertDesc t rest
    else t :: u :: rest

/-- `actionsObject.transfers.sort((a, b) => b.block_height - a.block_height)`
(line 400): sort a page descending by height. -/
def sortTransfersDesc : List FioTx → List FioTx
  | [] => []
  | t :: rest => insertDesc t (sortTransfersDesc rest)

/-- The `for` loop of `checkTransactions` (lines 408-421) over one sorted page:
returns the state, the running candidate watermark, and the `finish` flag. -/
def processPage (publicKey actor : String) :
    List FioTx → Nat → Int → EngineState → EngineState × Int × Bool
  | [], _, nh, st => (st, nh, false)
  | transfer :: rest, i, nh, st =>
    let p := processTransaction st publicKey transfer actor
    if p.2 > nh then processPage publicKey actor rest (i + 1) p.2 p.1
    else if (p.2 = nh ∧ i = 0) ∨ p.2 < p.1.walletLocalData.otherData.highestTxHeight then
      (p.1, nh, true)
    else processPage publicKey actor rest (i + 1) nh p.1

/-- The `while` loop of `checkTransactions` (lines 385-424).  `pages` is the
sequence of `getTransfers` responses the history endpoint returns for the
successive position cursors; an exhausted list behaves as an empty response.
Returns the state, the candidate watermark, and the responses never requested
because the loop stopped. -/
def transactionsWalk (publicKey actor : String) :
    List (List FioTx) → Int → Int → EngineState → EngineState × Int × List (List FioTx)
  | [], _, nh, st => (st, nh, [])
  | page :: rest, pos, nh, st =>
    if pos < 0 then (st, nh, page :: rest)
    else
      let transfers := sortTransfersDesc page
      if transfers.isEmpty then (st, nh, rest)
      else
        let r := processPage publicKey actor transfers 0 nh st
        if r.2.2 then (r.1, r.2.1, rest)
        else transactionsWalk publicKey actor rest (pos - 10) r.2.1 r.1

/-- `checkTransactions` (lines 346-430).  `lastActionSeqNumber` is the sequence
number from the initial most-recent-action probe, 0 when that probe failed or
returned no actions (the `!lastActionSeqNumber` early return). -/
def checkTransactions (publicKey actor : String) (lastActionSeqNumber : Int)
    (pages : List (List FioTx)) (st : EngineState) : EngineState :=
  if lastActionSeqNumber = 0 then st
  else
    let newHighestTxHeight := st.walletLocalData.otherData.highestTxHeight
    let r := transactionsWalk publicKey actor pages lastActionSeqNumber newHighestTxHeight st
    if r.2.1 > r.1.walletLocalData.otherData.highestTxHeight then
      { r.1 with
        walletLocalData :=
          { r.1.walletLocalData with
            otherData :=
              { r.1.walletLocalData.otherData with highestTxHeight := r.2.1 } },
        walletLocalDataDirty := true }
    else r.1

/-- One history-sync cycle's remote input: the most-recent-action sequence
number and the successive transfer pages. -/
structure SyncCycle where
  lastActionSeqNumber : Int
  pages : List (List FioTx)
deriving DecidableEq, Repr

/-- A sequence of history-sync cycles (`checkTransactionsInnerLoop` firings). -/
def runCycles (publicKey actor : String) : List SyncCycle → EngineState → EngineState
  | [], st => st
  | c :: rest, st =>
    runCycles publicKey actor rest
      (checkTransactions publicKey actor c.lastActionSeqNumber c.pages st)

/-! ## Endpoint failover (`multicastServers`, lines 455-533) -/

/-- What one endpoint's attempt does: complete with a value, or throw an error
object carrying an optional `errorCode` (absent for transport failures). -/
inductive EndpointOutcome (α : Type) where
  | value (v : α)
  | exn (errorCode : Option Nat) (message json list : String)
deriving DecidableEq, Repr

/-- `const fioApiErrorCodes = [400, 403, 404]` (line 24). -/
def fioApiErrorCodes : List Nat := [400, 403, 404]

/-- The `data` of the canonical wrapped error result
`{isError: true, data: {code, message, json, list}}` (lines 505-513). -/
structure WrappedErrData where
  code : Nat
  message : String
  json : String
  list : String
deriving DecidableEq, Repr

/-- Result of one waterfall attempt after the catch handler (lines 494-517):
a plain value or the canonical wrapped error result. -/
inductive McAttemptResult (α : Type) where
  | ok (v : α)
  | errorResult (d : WrappedErrData)
deriving DecidableEq, Repr

/-- One endpoint closure of the waterfall (lines 482-520): a thrown error whose
`errorCode` is in `fioApiErrorCodes` is converted to the wrapped error result;
any other error is rethrown (`none`), making the waterfall move on. -/
def attemptEndpoint {α : Type} : EndpointOutcome α → Option (McAttemptResult α)
  | EndpointOutcome.value v => some (McAttemptResult.ok v)
  | EndpointOutcome.exn ec msg json list =>
    match ec with
    | some c =>
      if c ∈ fioApiErrorCodes then some (McAttemptResult.errorResult ⟨c, msg, json, list⟩)
      else none
    | none => none

/-- Modelled from the spec: `asyncWaterfall` lives in `common/utils`, which is
not under src/; spec section 4.1: attempt endpoints in list order and return
the result of the first attempt that completes without a transport-level
failure; if every endpoint fails, fail with an aggregated unreachable error
(`none`).  Also returns how many endpoints were attempted. -/
def asyncWaterfall {α : Type} : List (Option α) → Option α × Nat
  | [] => (none, 0)
  | some v :: _ => (some v, 1)
  | none :: rest =>
    let r := asyncWaterfall rest
    (r.1, r.2 + 1)

/-- The throwable `FioError` built at the top of `multicastServers`
(lines 523-530), or a success, or the aggregated all-endpoints failure. -/
inductive MulticastOutcome (α : Type) where
  | ok (v : α)
  | fioError (errorCode : Nat) (message json list : String)
  | allFailed
deriving DecidableEq, Repr

/-- `multicastServers` for SDK actions (lines 481-533), with each endpoint's
behaviour given by `attempts`.  Returns the outcome and the number of
endpoints attempted.  Note: the thrown FioError's message is
`res.errorMessage` — a field the wrapped result `{isError, data: {...}}` does
not define — so the JS `Error` message is the empty string (`new
Error(undefined)`); the caught message survives only inside `res.data`. -/
def multicastServers {α : Type} (attempts : List (EndpointOutcome α)) :
    MulticastOutcome α × Nat :=
  let r := asyncWaterfall (attempts.map attemptEndpoint)
  match r.1 with
  | none => (MulticastOutcome.allFailed, r.2)
  | some (McAttemptResult.ok v) => (MulticastOutcome.ok v, r.2)
  | some (McAttemptResult.errorResult d) =>
    (MulticastOutcome.fioError d.code "" d.json d.list, r.2)

/-! ## Polling loops -/

/-- `checkBlockchainInnerLoop` (lines 232-250); `info` is the
`getChainInfo.head_block_num` outcome, `none` when the call threw (the catch
only logs).  `checkDroppedTransactionsThrottled` is a base-engine throttle
with no effect on the state modelled here. -/
def checkBlockchainInnerLoop (st : EngineState) (info : Option Int) : EngineState :=
  match info with
  | none => st
  | some blockHeight =>
    if st.walletLocalData.blockHeight ≠ blockHeight then
      { st with
        walletLocalData := { st.walletLocalData with blockHeight := blockHeight },
        walletLocalDataDirty := true,
        events := EngineEvent.blockHeightChanged blockHeight :: st.events }
    else st

/-- One `fio_addresses` record of a `getFioNames` response. -/
structure FioAddressApiRec where
  fio_address : String
  expiration : String
deriving DecidableEq, Repr

/-- One `fio_domains` record of a `getFioNames` response (`is_public` is the
JS truthy-checked numeric flag). -/
structure FioDomainApiRec where
  fio_domain : String
  expiration : String
  is_public : Nat
deriving DecidableEq, Repr

/-- A `getFioNames` response. -/
structure FioNamesResult where
  fio_addresses : List FioAddressApiRec
  fio_domains : List FioDomainApiRec
deriving DecidableEq, Repr

/-- The address-merge body of `checkAccountInnerLoop` (lines 563-579): update
the first record with the same name, else append; the flag is the `isChanged`
contribution. -/
def mergeFioAddress : List FioNameRec → FioAddressApiRec → List FioNameRec × Bool
  | [], a => ([⟨a.fio_address, a.expiration⟩], true)
  | r :: rest, a =>
    if r.name = a.fio_address then
      if r.expiration ≠ a.expiration then ({ r with expiration := a.expiration } :: rest, true)
      else (r :: rest, false)
    else
      let p := mergeFioAddress rest a
      (r :: p.1, p.2)

/-- The domain-merge body of `checkAccountInnerLoop` (lines 581-602). -/
def mergeFioDomain : List FioDomainRec → FioDomainApiRec → List FioDomainRec × Bool
  | [], d => ([⟨d.fio_domain, d.expiration, decide (d.is_public ≠ 0)⟩], true)
  | r :: rest, d =>
    if r.name = d.fio_domain then
      let c1 := r.expiration ≠ d.expiration
      let c2 := r.isPublic ≠ decide (d.is_public ≠ 0)
      ({ r with expiration := d.expiration, isPublic := decide (d.is_public ≠ 0) } :: rest,
        decide c1 || decide c2)
    else
      let p := mergeFioDomain rest d
      (r :: p.1, p.2)

/-- Fold of `mergeFioAddress` over a response, accumulating `isChanged`. -/
def mergeFioAddresses (l : List FioNameRec) :
    List FioAddressApiRec → List FioNameRec × Bool
  | [] => (l, false)
  | a :: rest =>
    let p := mergeFioAddress l a
    let q := mergeFioAddresses p.1 rest
    (q.1, p.2 || q.2)

/-- Fold of `mergeFioDomain` over a response, accumulating `isChanged`. -/
def mergeFioDomains (l : List FioDomainRec) :
    List FioDomainApiRec → List FioDomainRec × Bool
  | [] => (l, false)
  | d :: rest =>
    let p := mergeFioDomain l d
    let q := mergeFioDomains p.1 rest
    (q.1, p.2 || q.2)

/-- The balance section of `checkAccountInnerLoop` (lines 537-553):
default-initialize the cached entry, then `updateBalance` with the fetched
balance — or with `'0'` when the query threw (`balanceResult = none`). -/
def accountBalancePart (st : EngineState) (balanceResult : Option Nat) : EngineState :=
  let currencyCode := "FIO"
  let st1 :=
    if (alookup currencyCode st.walletLocalData.totalBalances).isNone then
      { st with
        walletLocalData :=
          { st.walletLocalData with
            totalBalances := aset currencyCode "0" st.walletLocalData.totalBalances } }
    else st
  let nativeAmount :=
    match balanceResult with
    | some balance => numToString balance
    | none => "0"
  updateBalance st1 currencyCode nativeAmount

/-- The FIO-names section of `checkAccountInnerLoop` (lines 555-606): merge the
`getFioNames` response, or do nothing when the call threw (the catch only
logs). -/
def accountNamesPart (st : EngineState) (namesResult : Option FioNamesResult) :
    EngineState :=
  match namesResult with
  | none => st
  | some result =>
    let pa := mergeFioAddresses st.walletLocalData.otherData.fioAddresses result.fio_addresses
    let pd := mergeFioDomains st.walletLocalData.otherData.fioDomains result.fio_domains
    let isChanged := pa.2 || pd.2
    let st3 :=
      { st with
        walletLocalData :=
          { st.walletLocalData with
            otherData :=
              { st.walletLocalData.otherData with
                fioAddresses := pa.1, fioDomains := pd.1 } } }
    if isChanged then { st3 with walletLocalDataDirty := true } else st3

/-- `checkAccountInnerLoop` (lines 536-607).  `balanceResult` is the
`getFioBalance` outcome (`none` when every endpoint failed: the catch sets
`nativeAmount = '0'`); `namesResult` is the `getFioNames` outcome. -/
def checkAccountInnerLoop (st : EngineState) (balanceResult : Option Nat)
    (namesResult : Option FioNamesResult) : EngineState :=
  accountNamesPart (accountBalancePart st balanceResult) namesResult

/-! ## Reset and the spend pipeline -/

/-- The FIO-specific statements of `clearBlockchainCache` (lines 611-613). -/
def clearBlockchainCacheFioStep (st : EngineState) : EngineState :=
  { st with
    walletLocalData :=
      { st.walletLocalData with
        otherData :=
          { st.walletLocalData.otherData with
            highestTxHeight := 0,
            feeTransactions := [],
            fioAddresses := [] } } }

/-- `clearBlockchainCache` (lines 609-614): the base-engine reset followed by
the FIO-specific clearing statements. -/
def clearBlockchainCache (st : EngineState) : EngineState :=
  clearBlockchainCacheFioStep (superClearBlockchainCache st)

/-- Errors `makeSpend` can throw: the insufficient-funds precondition failure,
or a biggystring exception on an undecodable amount. -/
inductive MakeSpendErr where
  | insufficientFunds
  | bnsFailure
deriving DecidableEq, Repr

/-- `makeSpend` (lines 635-686).  `nativeBalance` is the cached balance
returned by `super.makeSpend`, `quantity` and `publicAddress` come from
`spendTargets[0]`, and `fee` is the `getFee` result fetched through
`multicastServers`. -/
def makeSpend (nativeBalance publicAddress quantity : String) (fee : Nat)
    (publicKey : String) : Except MakeSpendErr EdgeTransaction :=
  match bnsAdd quantity (numToString fee) with
  | none => Except.error MakeSpendErr.bnsFailure
  | some total =>
    match bnsGt total nativeBalance with
    | none => Except.error MakeSpendErr.bnsFailure
    | some true => Except.error MakeSpendErr.insufficientFunds
    | some false =>
      match bnsSub ("-" ++ quantity) (numToString fee) with
      | none => Except.error MakeSpendErr.bnsFailure
      | some na =>
        Except.ok
          { txid := "",
            date := 0,
            currencyCode := "FIO",
            blockHeight := 0,
            nativeAmount := na,
            networkFee := numToString fee,
            parentNetworkFee := none,
            ourReceiveAddresses := [],
            signedTx := "0",
            otherParamsTransactionJson := some ⟨publicKey, publicAddress, quantity, ""⟩,
            metadataName := "",
            metadataNotes := "" }

/-- The `transferTokens` request submitted by `broadcastTx` (lines 708-712). -/
structure TransferTokensRequest where
  payeeFioPublicKey : String
  amount : String
  maxFee : String
deriving DecidableEq, Repr

/-- The broadcast response fields `broadcastTx` copies back (lines 714-716). -/
structure BroadcastResponse where
  transaction_id : String
  block_num : Int
deriving DecidableEq, Repr

/-- Errors `broadcastTx` can throw before reaching the network. -/
inductive BroadcastErr where
  | transactionJsonNotSet
  | bnsFailure
deriving DecidableEq, Repr

/-- `broadcastTx` (lines 693-718).  `response` is the successful
`transferTokens` result and `now` the current epoch-seconds clock; the result
pairs the submitted request with the updated transaction. -/
def broadcastTx (edgeTransaction : EdgeTransaction) (response : BroadcastResponse)
    (now : Int) : Except BroadcastErr (TransferTokensRequest × EdgeTransaction) :=
  match edgeTransaction.otherParamsTransactionJson with
  | none => Except.error BroadcastErr.transactionJsonNotSet
  | some tj =>
    match bnsAdd edgeTransaction.nativeAmount edgeTransaction.networkFee with
    | none => Except.error BroadcastErr.bnsFailure
    | some s =>
      match bnsAbs s with
      | none => Except.error BroadcastErr.bnsFailure
      | some amount =>
        Except.ok
          (⟨tj.toKey, amount, edgeTransaction.networkFee⟩,
            { edgeTransaction with
              txid := response.transaction_id,
              date := now,
              blockHeight := response.block_num })

/-! ## Association-list lemmas -/

lemma alookup_aset_self {β : Type} (k : String) (v : β) (l : List (String × β)) :
    alookup k (aset k v l) = some v := by
  induction l with
  | nil => simp [aset, alookup]
  | cons p rest ih =>
    obtain ⟨k', v'⟩ := p
    by_cases h : k' = k
    · simp [aset, alookup, h]
    · simp [aset, alookup, h, ih]

lemma alookup_aset_ne {β : Type} {k k' : String} (h : k' ≠ k) (v : β)
    (l : List (String × β)) : alookup k' (aset k v l) = alookup k' l := by
  have h' : k ≠ k' := Ne.symm h
  induction l with
  | nil => simp [aset, alookup, h']
  | cons p rest ih =>
    obtain ⟨k0, v0⟩ := p
    by_cases h0 : k0 = k
    · subst h0
      simp [aset, alookup, h']
    · simp [aset, alookup, h0, ih]

/-! ## Small facts about the engine state transformers -/

lemma getTxList_addTransaction_self (cc : String) (tx : EdgeTransaction)
    (st : EngineState) :
    getTxList cc (addTransaction cc tx st) = getTxList cc st ++ [tx] := by
  simp [getTxList, addTransaction, alookup_aset_self]

lemma getTxList_addTransaction_ne {cc cc' : String} (h : cc' ≠ cc)
    (tx : EdgeTransaction) (st : EngineState) :
    getTxList cc' (addTransaction cc tx st) = getTxList cc' st := by
  simp [getTxList, addTransaction, alookup_aset_ne h]

lemma watermark_addTransaction (cc : String) (tx : EdgeTransaction) (st : EngineState) :
    watermark (addTransaction cc tx st) = watermark st := rfl

lemma addTxLog_addTransaction (cc : String) (tx : EdgeTransaction) (st : EngineState) :
    (addTransaction cc tx st).addTxLog = st.addTxLog ++ [(cc, tx.txid)] := rfl

lemma findTxIdx_ge (txid : String) (l : List EdgeTransaction) :
    -1 ≤ findTxIdx txid l := by
  induction l with
  | nil => simp [findTxIdx]
  | cons tx rest ih =>
    by_cases h : tx.txid = txid
    · simp [findTxIdx, h]
    · by_cases hr : findTxIdx txid rest = -1
      · simp [findTxIdx, h, hr]
      · simp [findTxIdx, h, hr]
        omega

lemma findTxIdx_neg_iff (txid : String) (l : List EdgeTransaction) :
    findTxIdx txid l = -1 ↔ ∀ tx ∈ l, tx.txid ≠ txid := by
  induction l with
  | nil => simp [findTxIdx]
  | cons tx rest ih =>
    by_cases h : tx.txid = txid
    · simp [findTxIdx, h]
    · by_cases hr : findTxIdx txid rest = -1
      · simp only [findTxIdx, if_neg h, if_pos hr, List.forall_mem_cons]
        simp only [true_iff]
        exact ⟨h, ih.mp hr⟩
      · have hge := findTxIdx_ge txid rest
        simp only [findTxIdx, if_neg h, if_neg hr]
        constructor
        · intro h1
          exact absurd h1 (by omega)
        · intro hall
          exact absurd (ih.mpr (fun u hu => hall u (List.mem_cons_of_mem _ hu))) hr

/-! ## Claim theorems -/

/-- Claim C9: after `clearBlockchainCache` the `highestTxHeight` watermark is
zero and both auxiliary lists (addresses and domains) are empty, while the
FIO-specific clearing step leaves the cached balances unchanged. -/
theorem claim_C9 (st : EngineState) :
    watermark (clearBlockchainCache st) = 0 ∧
    (clearBlockchainCache st).walletLocalData.otherData.fioAddresses = [] ∧
    (clearBlockchainCache st).walletLocalData.otherData.fioDomains = [] ∧
    (clearBlockchainCacheFioStep st).walletLocalData.totalBalances =
      st.walletLocalData.totalBalances :=
  ⟨rfl, rfl, rfl, rfl⟩

/-- A state whose stored block height is 100 (all else empty). -/
def stBh100 : EngineState :=
  { walletLocalData :=
      { blockHeight := 100, totalBalances := [],
        otherData :=
          { highestTxHeight := 0, fioAddresses := [], fioDomains := [],
            feeTransactions := [] } },
    walletLocalDataDirty := false, transactionList := [], transactionsChangedArray := [],
    tokenCheckBalanceStatus := [], events := [], addTxLog := [] }

/-- Claim C8 counterexample: a chain-info response with a smaller
`head_block_num` (90 against a stored 100) replaces the stored `blockHeight`
with the smaller value — the update is not monotone. -/
theorem claim_C8_counterexample :
    (checkBlockchainInnerLoop stBh100 (some 90)).walletLocalData.blockHeight <
      stBh100.walletLocalData.blockHeight := by decide

/-- Claim C8 (amended): the height-polling loop overwrites the stored
`blockHeight` with the observed value whenever it differs — including when the
observed value is smaller — emitting `onBlockHeightChanged` exactly then, and a
failed poll leaves the state unchanged. -/
theorem claim_C8 (st : EngineState) (h : Int) :
    (checkBlockchainInnerLoop st (some h)).walletLocalData.blockHeight = h ∧
    (checkBlockchainInnerLoop st (some h)).events =
      (if st.walletLocalData.blockHeight = h then [] else
        [EngineEvent.blockHeightChanged h]) ++ st.events ∧
    checkBlockchainInnerLoop st none = st := by
  refine ⟨?_, ?_, rfl⟩ <;>
    by_cases heq : st.walletLocalData.blockHeight = h <;>
      simp [checkBlockchainInnerLoop, heq]

/-- What `updateBalance` does to the balance entry, the callback log and the
dirty flag, in terms of exact decimal comparison with the cached value. -/
lemma updateBalance_spec (st : EngineState) (tk balance : String) :
    alookup tk (updateBalance st tk balance).walletLocalData.totalBalances =
      some (if bnsEq balance ((alookup tk st.walletLocalData.totalBalances).getD "0")
        then (alookup tk st.walletLocalData.totalBalances).getD "0" else balance) ∧
    (updateBalance st tk balance).events =
      (if bnsEq balance ((alookup tk st.walletLocalData.totalBalances).getD "0")
        then [] else [EngineEvent.balanceChanged tk balance]) ++ st.events ∧
    (updateBalance st tk balance).walletLocalDataDirty =
      (st.walletLocalDataDirty ||
        !(bnsEq balance ((alookup tk st.walletLocalData.totalBalances).getD "0"))) := by
  rcases hl : alookup tk st.walletLocalData.totalBalances with _ | v
  · by_cases he : bnsEq balance "0"
    · simp [updateBalance, hl, alookup_aset_self, he]
    · simp [updateBalance, hl, alookup_aset_self, he]
  · by_cases he : bnsEq balance v
    · simp [updateBalance, hl, he]
    · simp [updateBalance, hl, he, alookup_aset_self]

lemma accountNamesPart_frame (st : EngineState) (nr : Option FioNamesResult) :
    (accountNamesPart st nr).walletLocalData.totalBalances =
      st.walletLocalData.totalBalances ∧
    (accountNamesPart st nr).events = st.events := by
  rcases nr with _ | result
  · exact ⟨rfl, rfl⟩
  · constructor <;> (simp only [accountNamesPart]; split <;> rfl)

lemma accountBalancePart_none (st : EngineState) :
    alookup "FIO" (accountBalancePart st none).walletLocalData.totalBalances =
      some (if bnsEq "0" ((alookup "FIO" st.walletLocalData.totalBalances).getD "0")
        then (alookup "FIO" st.walletLocalData.totalBalances).getD "0" else "0") ∧
    (accountBalancePart st none).events =
      (if bnsEq "0" ((alookup "FIO" st.walletLocalData.totalBalances).getD "0")
        then [] else [EngineEvent.balanceChanged "FIO" "0"]) ++ st.events := by
  rcases hl : alookup "FIO" st.walletLocalData.totalBalances with _ | v
  · have hb := updateBalance_spec
      { st with
        walletLocalData :=
          { st.walletLocalData with
            totalBalances := aset "FIO" "0" st.walletLocalData.totalBalances } } "FIO" "0"
    simp only [alookup_aset_self, Option.getD_some] at hb
    simp only [accountBalancePart, hl, Option.isNone_none, if_pos, Option.getD_none]
    exact ⟨hb.1, hb.2.1⟩
  · have hb := updateBalance_spec st "FIO" "0"
    rw [hl] at hb
    simp only [Option.getD_some] at hb
    simp only [accountBalancePart, hl, Option.isNone_some, if_neg, Option.getD_some,
      Bool.false_eq_true]
    exact ⟨hb.1, hb.2.1⟩

/-- A state caching balance "100" for FIO (all else empty). -/
def stBal100 : EngineState :=
  { walletLocalData :=
      { blockHeight := 0, totalBalances := [("FIO", "100")],
        otherData :=
          { highestTxHeight := 0, fioAddresses := [], fioDomains := [],
            feeTransactions := [] } },
    walletLocalDataDirty := false, transactionList := [], transactionsChangedArray := [],
    tokenCheckBalanceStatus := [], events := [], addTxLog := [] }

/-- Claim C7 counterexample: when the balance query fails on every endpoint
(`balanceResult = none`), the previously cached balance "100" does NOT remain
unchanged — the catch substitutes `'0'` and `updateBalance` overwrites the
cache and emits a balance-changed notification carrying the different value
"0". -/
theorem claim_C7_counterexample :
    alookup "FIO" stBal100.walletLocalData.totalBalances = some "100" ∧
    alookup "FIO"
        (checkAccountInnerLoop stBal100 none none).walletLocalData.totalBalances =
      some "0" ∧
    (checkAccountInnerLoop stBal100 none none).events =
      EngineEvent.balanceChanged "FIO" "0" :: stBal100.events := by decide

/-- Claim C7 (amended): when the balance query fails on every endpoint the
engine keeps running — the task catches the error and the loop completes — but
the catch substitutes `'0'`: the cached balance is overwritten with "0"
(unchanged only when already decimal-equal to zero) and an
`onBalanceChanged("FIO","0")` notification is emitted exactly when the cached
value was not decimal-equal to zero. -/
theorem claim_C7 (st : EngineState) (namesResult : Option FioNamesResult) :
    alookup "FIO" (checkAccountInnerLoop st none namesResult).walletLocalData.totalBalances =
      some (if bnsEq "0" ((alookup "FIO" st.walletLocalData.totalBalances).getD "0")
        then (alookup "FIO" st.walletLocalData.totalBalances).getD "0" else "0") ∧
    (checkAccountInnerLoop st none namesResult).events =
      (if bnsEq "0" ((alookup "FIO" st.walletLocalData.totalBalances).getD "0")
        then [] else [EngineEvent.balanceChanged "FIO" "0"]) ++ st.events := by
  have hnp := accountNamesPart_frame (accountBalancePart st none) namesResult
  have hbp := accountBalancePart_none st
  unfold checkAccountInnerLoop
  rw [hnp.1, hnp.2, hbp.1, hbp.2]
  exact ⟨rfl, rfl⟩

/-- A state caching balance "1" for FIO (all else empty). -/
def stBal1 : EngineState :=
  { walletLocalData :=
      { blockHeight := 0, totalBalances := [("FIO", "1")],
        otherData :=
          { highestTxHeight := 0, fioAddresses := [], fioDomains := [],
            feeTransactions := [] } },
    walletLocalDataDirty := false, transactionList := [], transactionsChangedArray := [],
    tokenCheckBalanceStatus := [], events := [], addTxLog := [] }

/-- Claim C5: updating a cached balance emits `onBalanceChanged` and sets the
dirty flag exactly when the new value differs from the cached one under exact
decimal comparison; in particular the decimal-equal strings "1.0" and "1"
trigger no notification. -/
theorem claim_C5 :
    ((updateBalance stBal1 "FIO" "1.0").events = stBal1.events ∧
     (updateBalance stBal1 "FIO" "1.0").walletLocalDataDirty =
       stBal1.walletLocalDataDirty) ∧
    ∀ (st : EngineState) (tk balance : String) (d dc : Dec),
      readDec balance = some d →
      readDec ((alookup tk st.walletLocalData.totalBalances).getD "0") = some dc →
      (((updateBalance st tk balance).events =
          EngineEvent.balanceChanged tk balance :: st.events ∧
        (updateBalance st tk balance).walletLocalDataDirty = true) ↔
        decValEq d dc = false) ∧
      (decValEq d dc = true →
        (updateBalance st tk balance).events = st.events ∧
        (updateBalance st tk balance).walletLocalDataDirty =
          st.walletLocalDataDirty) := by
  constructor
  · exact ⟨by decide, by decide⟩
  · intro st tk balance d dc hd hdc
    have hb := updateBalance_spec st tk balance
    have he : bnsEq balance ((alookup tk st.walletLocalData.totalBalances).getD "0") =
        decValEq d dc := by
      simp [bnsEq, hd, hdc]
    rw [he] at hb
    rcases hq : decValEq d dc with _ | _
    · simp [hq] at hb
      constructor
      · constructor
        · intro _
          rfl
        · intro _
          exact ⟨hb.2.1, hb.2.2⟩
      · intro hc
        exact absurd hc (by simp)
    · simp [hq] at hb
      constructor
      · constructor
        · intro hcon
          rw [hb.2.1] at hcon
          exact absurd hcon.1 (Ne.symm (List.cons_ne_self _ _))
        · intro hcon
          exact absurd hcon (by simp)
      · intro _
        exact ⟨hb.2.1, hb.2.2⟩

/-- Claim C5 witness: a genuinely different value ("2" against cached "1")
does emit the notification and set the dirty flag. -/
theorem claim_C5_witness :
    (updateBalance stBal1 "FIO" "2").events =
      EngineEvent.balanceChanged "FIO" "2" :: stBal1.events ∧
    (updateBalance stBal1 "FIO" "2").walletLocalDataDirty = true :=
  ((claim_C5.2 stBal1 "FIO" "2" ⟨2, 0⟩ ⟨1, 0⟩ (by decide) (by decide)).1).mpr (by decide)

/-- Claim C4 (code-bug evaluation): an application-level rejection (code 400,
message "boom") on the first endpoint stops the waterfall after exactly one
attempt — whatever endpoints remain — and is surfaced as a typed FioError
carrying the code and the json/list detail; but the FioError's message is
empty, not "boom": `multicastServers` builds it from `res.errorMessage`, a
field the wrapped result `{isError, data: {code, message, json, list}}` never
defines, so the rejection's message is dropped. -/
theorem claim_C4 :
    (∀ post : List (EndpointOutcome Nat),
      multicastServers (EndpointOutcome.exn (some 400) "boom" "j" "l" :: post) =
        (MulticastOutcome.fioError 400 "" "j" "l", 1)) ∧
    (MulticastOutcome.fioError 400 "" "j" "l" : MulticastOutcome Nat) ≠
      MulticastOutcome.fioError 400 "boom" "j" "l" :=
  ⟨fun _ => rfl, by decide⟩

/-- A state whose committed watermark is 100 (all else empty). -/
def stWm100 : EngineState :=
  { walletLocalData :=
      { blockHeight := 0, totalBalances := [],
        otherData :=
          { highestTxHeight := 100, fioAddresses := [], fioDomains := [],
            feeTransactions := [] } },
    walletLocalDataDirty := false, transactionList := [], transactionsChangedArray := [],
    tokenCheckBalanceStatus := [], events := [], addTxLog := [] }

/-- A sample ownership-transfer record at the given height, addressed to a
third party. -/
def sampleTx (h : Int) (txid : String) : FioTx :=
  { block_height := h, block_time_ms := 0, payer := "p", payee := "q",
    payee_public_key := "k", transfer_amount := 7, fee_amount := 1,
    transaction_total := 8, notes := "", action := "trnsfiopubky", tpid := "",
    transaction_id := txid }

/-- A self-to-self ownership-transfer record: payee public key is the local
key "pub" and the payer is the locally resolved actor "act". -/
def selfTx : FioTx :=
  { block_height := 150, block_time_ms := 0, payer := "act", payee := "q",
    payee_public_key := "pub", transfer_amount := 7, fee_amount := 1,
    transaction_total := 8, notes := "", action := "trnsfiopubky", tpid := "",
    transaction_id := "self1" }

/-- Claim C6: a trnsfiopubky record above the watermark whose payee public key
equals the local account's public key and whose payer equals the locally
resolved actor (self-to-self) is recorded with nativeAmount "0" and the local
public key among its ourReceiveAddresses. -/
theorem claim_C6 (st : EngineState) (pk actor : String) (t : FioTx)
    (hh : watermark st < t.block_height)
    (ha : t.action = "trnsfiopubky")
    (hp : t.payee_public_key = pk)
    (hs : t.payer = actor) :
    ∃ tx : EdgeTransaction,
      getTxList "FIO" (processTransaction st pk t actor).1 =
        getTxList "FIO" st ++ [tx] ∧
      tx.txid = t.transaction_id ∧ tx.nativeAmount = "0" ∧
      pk ∈ tx.ourReceiveAddresses := by
  have h1 : ¬ (t.block_height ≤ st.walletLocalData.otherData.highestTxHeight) := by
    unfold watermark at hh; omega
  refine ⟨{ txid := t.transaction_id, date := t.block_time_ms / 1000,
            currencyCode := "FIO",
            blockHeight := if t.block_height > 0 then t.block_height else 0,
            nativeAmount := "0", networkFee := numToString t.fee_amount,
            parentNetworkFee := some "0", ourReceiveAddresses := [pk], signedTx := "",
            otherParamsTransactionJson := none, metadataName := "",
            metadataNotes := "Recipient Address: " ++ t.payee_public_key },
    ?_, rfl, rfl, ?_⟩
  · simp [processTransaction, h1, ha, hp, hs, getTxList_addTransaction_self]
  · simp

/-- Claim C6 witness: the self-to-self record `selfTx` at height 150, above
watermark 100, is recorded with amount "0" and "pub" as a receive address. -/
theorem claim_C6_witness :
    ∃ tx : EdgeTransaction,
      getTxList "FIO" (processTransaction stWm100 "pub" selfTx "act").1 =
        getTxList "FIO" stWm100 ++ [tx] ∧
      tx.txid = selfTx.transaction_id ∧ tx.nativeAmount = "0" ∧
      "pub" ∈ tx.ourReceiveAddresses :=
  claim_C6 stWm100 "pub" "act" selfTx (by decide) rfl rfl rfl

/-! ## Exponent-zero arithmetic lemmas -/

lemma decAdd_exp_zero (a b : Int) : decAdd ⟨a, 0⟩ ⟨b, 0⟩ = ⟨a + b, 0⟩ := by
  simp [decAdd]

lemma decSub_exp_zero (a b : Int) : decSub ⟨a, 0⟩ ⟨b, 0⟩ = ⟨a - b, 0⟩ := by
  simp [decSub]

lemma decValGt_exp_zero (a b : Int) : decValGt ⟨a, 0⟩ ⟨b, 0⟩ = decide (b < a) := by
  simp [decValGt]

lemma decValEq_exp_zero (a b : Int) : decValEq ⟨a, 0⟩ ⟨b, 0⟩ = decide (a = b) := by
  simp [decValEq]

lemma dash_append_data (q : String) : ("-" ++ q).data = '-' :: q.data := by
  cases q with
  | mk l => rfl

/-- Claim C3: `makeSpend` throws InsufficientFundsError exactly when the
requested amount plus the fetched fee exceeds the cached balance; otherwise it
returns an unsigned transaction whose nativeAmount is the negated sum of
amount and fee and whose networkFee equals the fetched fee.  Includes the
spec's concrete scenario (balance "100", amount "90", fee 20 fails; fee 5
yields nativeAmount "-95" and networkFee "5"). -/
theorem claim_C3 :
    (makeSpend "100" "addr" "90" 20 "pk" = Except.error MakeSpendErr.insufficientFunds ∧
     ∃ tx, makeSpend "100" "addr" "90" 5 "pk" = Except.ok tx ∧
       tx.nativeAmount = "-95" ∧ tx.networkFee = "5") ∧
    ∀ (nativeBalance publicAddress quantity publicKey : String) (fee : Nat)
      (bn : Int) (qp : Nat),
      readDec nativeBalance = some ⟨bn, 0⟩ →
      readUnsignedDec quantity.data = some (qp, 0) →
      ((makeSpend nativeBalance publicAddress quantity fee publicKey =
          Except.error MakeSpendErr.insufficientFunds) ↔
        bn < (qp : Int) + (fee : Int)) ∧
      (¬ (bn < (qp : Int) + (fee : Int)) →
        ∃ tx, makeSpend nativeBalance publicAddress quantity fee publicKey =
            Except.ok tx ∧
          readDec tx.nativeAmount = some ⟨-((qp : Int) + (fee : Int)), 0⟩ ∧
          tx.networkFee = numToString fee) := by
  constructor
  · exact ⟨rfl, ⟨_, rfl, by decide, by decide⟩⟩
  · intro nativeBalance publicAddress quantity publicKey fee bn qp hbal hq
    have hqd : readDec quantity = some ⟨(qp : Int), 0⟩ := readDecList_of_readUnsignedDec hq
    have hfee : readDec (numToString fee) = some ⟨(fee : Int), 0⟩ := readDec_numToString fee
    have htotal : bnsAdd quantity (numToString fee) =
        some (printDec ⟨(qp : Int) + (fee : Int), 0⟩) := by
      simp [bnsAdd, hqd, hfee, decAdd_exp_zero]
    have hrt := readDec_printDec_int ((qp : Int) + (fee : Int))
    have hgt : bnsGt (printDec ⟨(qp : Int) + (fee : Int), 0⟩) nativeBalance =
        some (decide (bn < (qp : Int) + (fee : Int))) := by
      simp [bnsGt, hrt, hbal, decValGt_exp_zero]
    have hneg : readDec ("-" ++ quantity) = some ⟨-(qp : Int), 0⟩ := by
      rw [readDec, dash_append_data]
      simp [readDecList, hq]
    have hsub : bnsSub ("-" ++ quantity) (numToString fee) =
        some (printDec ⟨-(qp : Int) - (fee : Int), 0⟩) := by
      simp [bnsSub, hneg, hfee, decSub_exp_zero]
    by_cases hc : bn < (qp : Int) + (fee : Int)
    · refine ⟨⟨fun _ => hc, fun _ => ?_⟩, fun hnc => absurd hc hnc⟩
      simp [makeSpend, htotal, hgt, hc]
    · constructor
      · constructor
        · intro herr
          simp [makeSpend, htotal, hgt, hc, hsub] at herr
        · intro hlt
          exact absurd hlt hc
      · intro _
        refine ⟨{ txid := "", date := 0, currencyCode := "FIO", blockHeight := 0,
                  nativeAmount := printDec ⟨-(qp : Int) - (fee : Int), 0⟩,
                  networkFee := numToString fee, parentNetworkFee := none,
                  ourReceiveAddresses := [], signedTx := "0",
                  otherParamsTransactionJson :=
                    some ⟨publicKey, publicAddress, quantity, ""⟩,
                  metadataName := "", metadataNotes := "" }, ?_, ?_, rfl⟩
        · simp [makeSpend, htotal, hgt, hc, hsub]
        · rw [readDec_printDec_int (-(qp : Int) - (fee : Int))]
          simp only [Option.some.injEq, Dec.mk.injEq]
          refine ⟨by ring, by trivial⟩

/-- Claim C3 witness: applying the theorem at balance "100", amount "90",
fee 20 yields the insufficient-funds rejection. -/
theorem claim_C3_witness :
    makeSpend "100" "addrW" "90" 20 "pkW" = Except.error MakeSpendErr.insufficientFunds :=
  ((claim_C3.2 "100" "addrW" "90" "pkW" 20 100 90 (by decide) (by decide)).1).mpr
    (by decide)

/-- Claim C10: for every transaction produced by `makeSpend` (nativeAmount =
-(q+f), networkFee = f), `broadcastTx` submits a transfer amount equal to the
absolute value of nativeAmount plus networkFee — exactly the originally
requested amount q, up to exact decimal equality. -/
theorem claim_C10 (nativeBalance publicAddress quantity publicKey : String)
    (fee : Nat) (qn : Int) (hq : readDec quantity = some ⟨qn, 0⟩)
    (tx : EdgeTransaction)
    (hok : makeSpend nativeBalance publicAddress quantity fee publicKey = Except.ok tx)
    (response : BroadcastResponse) (now : Int) :
    ∃ req tx', broadcastTx tx response now = Except.ok (req, tx') ∧
      bnsEq req.amount quantity = true := by
  have hfee : readDec (numToString fee) = some ⟨(fee : Int), 0⟩ := readDec_numToString fee
  have hadd : bnsAdd quantity (numToString fee) =
      some (printDec ⟨qn + (fee : Int), 0⟩) := by
    simp [bnsAdd, hq, hfee, decAdd_exp_zero]
  rcases hbal : readDec nativeBalance with _ | db
  · simp [makeSpend, hadd, bnsGt, readDec_printDec_int, hbal] at hok
  · have hgt : bnsGt (printDec ⟨qn + (fee : Int), 0⟩) nativeBalance =
        some (decValGt ⟨qn + (fee : Int), 0⟩ db) := by
      simp [bnsGt, readDec_printDec_int, hbal]
    rcases hgtv : decValGt ⟨qn + (fee : Int), 0⟩ db with _ | _
    · rcases hu : readUnsignedDec quantity.data with _ | p
      · have hneg : readDec ("-" ++ quantity) = none := by
          rw [readDec, dash_append_data]
          simp [readDecList, hu]
        simp [makeSpend, hadd, hgt, hgtv, bnsSub, hneg] at hok
      · have hp := readDecList_of_readUnsignedDec hu
        rw [← readDec] at hp
        rw [hq] at hp
        have hp' := Option.some.inj hp
        have hp1 : (p.1 : Int) = qn := (congrArg Dec.num hp').symm
        have hp2 : p.2 = 0 := (congrArg Dec.exp hp').symm
        have hqn : 0 ≤ qn := by
          rw [← hp1]
          exact Int.natCast_nonneg p.1
        have hneg : readDec ("-" ++ quantity) = some ⟨-qn, 0⟩ := by
          rw [readDec, dash_append_data]
          simp [readDecList, hu, hp1, hp2]
        have hsub : bnsSub ("-" ++ quantity) (numToString fee) =
            some (printDec ⟨-qn - (fee : Int), 0⟩) := by
          simp [bnsSub, hneg, hfee, decSub_exp_zero]
        simp only [makeSpend, hadd, hgt, hgtv, hsub] at hok
        have htx := Except.ok.inj hok
        subst htx
        have hadd2 : bnsAdd (printDec ⟨-qn - (fee : Int), 0⟩) (numToString fee) =
            some (printDec ⟨-qn - (fee : Int) + (fee : Int), 0⟩) := by
          simp [bnsAdd, readDec_printDec_int, hfee, decAdd_exp_zero]
        have hsimpl : -qn - (fee : Int) + (fee : Int) = -qn := by ring
        rw [hsimpl] at hadd2
        have habs : bnsAbs (printDec ⟨-qn, 0⟩) =
            some (printDec ⟨(((-qn).natAbs : Nat) : Int), 0⟩) := by
          simp [bnsAbs, readDec_printDec_int]
        have habsval : ((((-qn).natAbs : Nat)) : Int) = qn := by
          rw [Int.natAbs_neg]
          exact Int.natAbs_of_nonneg hqn
        rw [habsval] at habs
        refine ⟨⟨publicAddress, printDec ⟨qn, 0⟩, numToString fee⟩,
          { txid := response.transaction_id, date := now, currencyCode := "FIO",
            blockHeight := response.block_num,
            nativeAmount := printDec ⟨-qn - (fee : Int), 0⟩,
            networkFee := numToString fee, parentNetworkFee := none,
            ourReceiveAddresses := [], signedTx := "0",
            otherParamsTransactionJson := some ⟨publicKey, publicAddress, quantity, ""⟩,
            metadataName := "", metadataNotes := "" }, ?_, ?_⟩
        · simp [broadcastTx, hadd2, habs]
        · simp [bnsEq, readDec_printDec_int, hq, decValEq_exp_zero]
    · simp [makeSpend, hadd, hgt, hgtv] at hok

/-- The transaction `makeSpend` builds for balance "100", amount "90", fee 5. -/
def sampleSpendTx : EdgeTransaction :=
  { txid := "", date := 0, currencyCode := "FIO", blockHeight := 0,
    nativeAmount := "-95", networkFee := "5", parentNetworkFee := none,
    ourReceiveAddresses := [], signedTx := "0",
    otherParamsTransactionJson := some ⟨"pk", "addr", "90", ""⟩,
    metadataName := "", metadataNotes := "" }

/-- Claim C10 witness: for the spend built from balance "100", amount "90",
fee 5 (nativeAmount "-95"), the broadcast submits an amount decimal-equal to
"90". -/
theorem claim_C10_witness :
    ∃ req tx', broadcastTx sampleSpendTx ⟨"tid1", 77⟩ 123 = Except.ok (req, tx') ∧
      bnsEq req.amount "90" = true :=
  claim_C10 "100" "addr" "90" "pk" 5 90 (by decide) sampleSpendTx rfl
    ⟨"tid1", 77⟩ 123

/-! ## Facts about the history walk -/

lemma processTransaction_spec (st : EngineState) (pk : String) (t : FioTx)
    (actor : String) :
    (processTransaction st pk t actor).2 = t.block_height ∧
    ((processTransaction st pk t actor).1 = st ∨
      (watermark st < t.block_height ∧
        ∃ tx : EdgeTransaction, tx.txid = t.transaction_id ∧
          (processTransaction st pk t actor).1 = addTransaction "FIO" tx st)) := by
  by_cases h1 : t.block_height ≤ st.walletLocalData.otherData.highestTxHeight
  · simp [processTransaction, h1]
  by_cases h2 : t.action ≠ "trnsfiopubky" ∧ t.action ≠ "transfer"
  · simp [processTransaction, h1, h2]
  by_cases h3 : t.action = "trnsfiopubky"
  · simp only [processTransaction, if_neg h1, if_neg h2, if_pos h3]
    exact ⟨trivial, Or.inr ⟨not_le.mp h1, _, rfl, rfl⟩⟩
  · simp only [processTransaction, if_neg h1, if_neg h2, if_neg h3]
    by_cases h4 : findTransaction "FIO" t.transaction_id st > -1
    · simp only [if_pos h4]
      exact ⟨trivial, Or.inl trivial⟩
    · simp only [if_neg h4]
      exact ⟨trivial, Or.inr ⟨not_le.mp h1, _, rfl, rfl⟩⟩

lemma processTransaction_watermark (st : EngineState) (pk : String) (t : FioTx)
    (actor : String) :
    watermark (processTransaction st pk t actor).1 = watermark st := by
  rcases (processTransaction_spec st pk t actor).2 with h | ⟨_, tx, _, h⟩ <;> rw [h]
  rfl

lemma processPage_facts (pk actor : String) (ts : List FioTx) :
    ∀ (i : Nat) (nh : Int) (st : EngineState),
      watermark (processPage pk actor ts i nh st).1 = watermark st ∧
      nh ≤ (processPage pk actor ts i nh st).2.1 := by
  induction ts with
  | nil => intro i nh st; exact ⟨rfl, le_refl _⟩
  | cons t rest ih =>
    intro i nh st
    have hw := processTransaction_watermark st pk t actor
    simp only [processPage]
    by_cases hgt : (processTransaction st pk t actor).2 > nh
    · rw [if_pos hgt]
      have h2 := ih (i + 1) (processTransaction st pk t actor).2
        (processTransaction st pk t actor).1
      exact ⟨h2.1.trans hw, by omega⟩
    · rw [if_neg hgt]
      by_cases hfin : ((processTransaction st pk t actor).2 = nh ∧ i = 0) ∨
          (processTransaction st pk t actor).2 <
            (processTransaction st pk t actor).1.walletLocalData.otherData.highestTxHeight
      · rw [if_pos hfin]
        exact ⟨hw, le_refl _⟩
      · rw [if_neg hfin]
        have h2 := ih (i + 1) nh (processTransaction st pk t actor).1
        exact ⟨h2.1.trans hw, h2.2⟩

lemma transactionsWalk_facts (pk actor : String) (pages : List (List FioTx)) :
    ∀ (pos nh : Int) (st : EngineState),
      watermark (transactionsWalk pk actor pages pos nh st).1 = watermark st ∧
      nh ≤ (transactionsWalk pk actor pages pos nh st).2.1 := by
  induction pages with
  | nil => intro pos nh st; exact ⟨rfl, le_refl _⟩
  | cons page rest ih =>
    intro pos nh st
    by_cases hpos : pos < 0
    · simp only [transactionsWalk, if_pos hpos]
      constructor <;> simp
    · simp only [transactionsWalk, if_neg hpos]
      by_cases hemp : (sortTransfersDesc page).isEmpty
      · rw [if_pos hemp]
        exact ⟨rfl, le_refl _⟩
      · rw [if_neg hemp]
        have hpp := processPage_facts pk actor (sortTransfersDesc page) 0 nh st
        cases hfin : (processPage pk actor (sortTransfersDesc page) 0 nh st).2.2 with
        | true =>
          rw [if_pos rfl]
          exact hpp
        | false =>
          rw [if_neg Bool.false_ne_true]
          have h2 := ih (pos - 10)
            (processPage pk actor (sortTransfersDesc page) 0 nh st).2.1
            (processPage pk actor (sortTransfersDesc page) 0 nh st).1
          exact ⟨h2.1.trans hpp.1, le_trans hpp.2 h2.2⟩

/-- The two pages of the spec's watermark scenario followed by one page the
loop must never request. -/
def samplePages : List (List FioTx) :=
  [[sampleTx 150 "a", sampleTx 140 "b", sampleTx 130 "c"],
   [sampleTx 120 "d", sampleTx 110 "e", sampleTx 90 "f"],
   [sampleTx 80 "g"]]

/-- Claim C2: in the scenario starting at watermark 100 with pages
[150,140,130] and [120,110,90], `checkTransactions` commits watermark 150 and
the record at height 90 terminates the paging loop (the third page is never
requested); in general the watermark is committed — and the state marked
dirty — exactly when the walk's candidate exceeds the previously recorded
value. -/
theorem claim_C2 :
    (watermark (checkTransactions "pub" "act" 25 samplePages stWm100) = 150 ∧
     (transactionsWalk "pub" "act" samplePages 25 (watermark stWm100) stWm100).2.2 =
       [[sampleTx 80 "g"]] ∧
     (checkTransactions "pub" "act" 25 samplePages stWm100).walletLocalDataDirty =
       true) ∧
    ∀ (pk actor : String) (lastSeq : Int) (pages : List (List FioTx))
      (st : EngineState),
      lastSeq ≠ 0 →
      watermark (checkTransactions pk actor lastSeq pages st) =
        max (watermark st)
          (transactionsWalk pk actor pages lastSeq (watermark st) st).2.1 ∧
      (¬ watermark st <
          (transactionsWalk pk actor pages lastSeq (watermark st) st).2.1 →
        checkTransactions pk actor lastSeq pages st =
          (transactionsWalk pk actor pages lastSeq (watermark st) st).1) ∧
      (watermark st <
          (transactionsWalk pk actor pages lastSeq (watermark st) st).2.1 →
        (checkTransactions pk actor lastSeq pages st).walletLocalDataDirty = true) := by
  constructor
  · exact ⟨by decide, by decide, by decide⟩
  · intro pk actor lastSeq pages st hseq
    have hw := transactionsWalk_facts pk actor pages lastSeq (watermark st) st
    unfold watermark at hw ⊢
    simp only [checkTransactions, if_neg hseq]
    by_cases hc :
        (transactionsWalk pk actor pages lastSeq
          st.walletLocalData.otherData.highestTxHeight st).2.1 >
        (transactionsWalk pk actor pages lastSeq
          st.walletLocalData.otherData.highestTxHeight
          st).1.walletLocalData.otherData.highestTxHeight
    · rw [if_pos hc]
      have hlt : st.walletLocalData.otherData.highestTxHeight <
          (transactionsWalk pk actor pages lastSeq
            st.walletLocalData.otherData.highestTxHeight st).2.1 := by
        rw [hw.1] at hc
        exact hc
      refine ⟨?_, ?_, ?_⟩
      · show (transactionsWalk pk actor pages lastSeq
            st.walletLocalData.otherData.highestTxHeight st).2.1 = _
        rw [max_eq_right (le_of_lt hlt)]
      · intro hn
        exact absurd hlt hn
      · intro _
        rfl
    · rw [if_neg hc]
      have hle : (transactionsWalk pk actor pages lastSeq
          st.walletLocalData.otherData.highestTxHeight st).2.1 ≤
          st.walletLocalData.otherData.highestTxHeight := by
        have h1 := not_lt.mp hc
        rw [hw.1] at h1
        exact h1
      have heq : (transactionsWalk pk actor pages lastSeq
          st.walletLocalData.otherData.highestTxHeight st).2.1 =
          st.walletLocalData.otherData.highestTxHeight :=
        le_antisymm hle hw.2
      refine ⟨?_, fun _ => rfl, ?_⟩
      · rw [hw.1, heq, max_self]
      · intro hlt
        exact absurd hlt (not_lt.mpr hle)

/-- Claim C2 witness: the general commit law applied to the concrete
scenario. -/
theorem claim_C2_witness :
    watermark (checkTransactions "pub" "act" 25 samplePages stWm100) =
      max (watermark stWm100)
        (transactionsWalk "pub" "act" samplePages 25 (watermark stWm100) stWm100).2.1 :=
  (claim_C2.2 "pub" "act" 25 samplePages stWm100 (by decide)).1

/-! ## The no-duplicate-addTransaction invariant (claim C1) -/

/-- A transaction with the given txid is present in the currency's list. -/
def hasTx (cc txid : String) (st : EngineState) : Prop :=
  ∃ tx ∈ getTxList cc st, tx.txid = txid

/-- Invariant maintained while a history-sync cycle walks its pages.
`s0` is the state at cycle start, `seen` the txids of the records processed so
far in this cycle, `nh` the running candidate watermark. -/
def Mid (H : String → Int) (s0 : EngineState) (seen : List String)
    (st : EngineState) (nh : Int) : Prop :=
  watermark st = watermark s0 ∧
  st.addTxLog.Nodup ∧
  (∀ p ∈ st.addTxLog, hasTx p.1 p.2 st) ∧
  (∀ p ∈ st.addTxLog,
    p ∈ s0.addTxLog ∨ (watermark s0 < H p.2 ∧ H p.2 ≤ nh ∧ p.2 ∈ seen)) ∧
  (∀ cc x, hasTx cc x s0 → hasTx cc x st)

/-- Cross-cycle invariant: the call log is duplicate-free, every logged txid
is in the transaction list, and its height is at or below the committed
watermark. -/
def GoodLog (H : String → Int) (st : EngineState) : Prop :=
  st.addTxLog.Nodup ∧
  ∀ p ∈ st.addTxLog, hasTx p.1 p.2 st ∧ H p.2 ≤ watermark st

lemma hasTx_addTransaction_mono {cc x : String} {st : EngineState}
    (cc' : String) (tx : EdgeTransaction) (h : hasTx cc x st) :
    hasTx cc x (addTransaction cc' tx st) := by
  obtain ⟨u, hu, hx⟩ := h
  by_cases hcc : cc = cc'
  · subst hcc
    exact ⟨u, by rw [getTxList_addTransaction_self]; exact List.mem_append_left _ hu, hx⟩
  · exact ⟨u, by rw [getTxList_addTransaction_ne hcc]; exact hu, hx⟩

lemma hasTx_addTransaction_self (cc : String) (tx : EdgeTransaction)
    (st : EngineState) : hasTx cc tx.txid (addTransaction cc tx st) :=
  ⟨tx, by rw [getTxList_addTransaction_self]; exact List.mem_append_right _ (by simp), rfl⟩

lemma Mid_mono {H : String → Int} {s0 : EngineState} {seen seen' : List String}
    {st : EngineState} {nh nh' : Int} (hs : seen ⊆ seen') (hn : nh ≤ nh')
    (h : Mid H s0 seen st nh) : Mid H s0 seen' st nh' := by
  obtain ⟨h1, h2, h3, h4, h5⟩ := h
  refine ⟨h1, h2, h3, fun p hp => ?_, h5⟩
  rcases h4 p hp with hl | ⟨ha, hb, hc⟩
  · exact Or.inl hl
  · exact Or.inr ⟨ha, le_trans hb hn, hs hc⟩

lemma processTransaction_mid (H : String → Int) (s0 : EngineState)
    (hs0 : ∀ p ∈ s0.addTxLog, H p.2 ≤ watermark s0)
    (st : EngineState) (pk actor : String) (t : FioTx)
    (hH : t.block_height = H t.transaction_id)
    (seen : List String) (hnotin : t.transaction_id ∉ seen)
    (nh : Int) (hMid : Mid H s0 seen st nh) :
    Mid H s0 (seen ++ [t.transaction_id]) (processTransaction st pk t actor).1
      (if (processTransaction st pk t actor).2 > nh
        then (processTransaction st pk t actor).2 else nh) := by
  have hnh : nh ≤ (if (processTransaction st pk t actor).2 > nh
      then (processTransaction st pk t actor).2 else nh) := by
    split <;> omega
  obtain ⟨hbn, hcase⟩ := processTransaction_spec st pk t actor
  rcases hcase with heq | ⟨hlt, tx, htxid, heq⟩
  · rw [heq]
    exact Mid_mono (List.subset_append_left _ _) hnh hMid
  · rw [heq]
    obtain ⟨m1, m2, m3, m4, m5⟩ := hMid
    have hnewH : watermark s0 < H t.transaction_id := by
      rw [← hH, ← m1]
      exact hlt
    have hnhH : H t.transaction_id ≤
        (if (processTransaction st pk t actor).2 > nh
          then (processTransaction st pk t actor).2 else nh) := by
      rw [hbn, hH] at *
      split <;> omega
    constructor
    · rw [watermark_addTransaction, m1]
    constructor
    · rw [addTxLog_addTransaction, htxid]
      refine List.Nodup.append m2 (by simp) ?_
      intro p hp
      simp only [List.mem_singleton]
      intro hpe
      subst hpe
      rcases m4 _ hp with hold | ⟨_, _, hseen⟩
      · have := hs0 _ hold
        simp only at this
        omega
      · exact hnotin hseen
    constructor
    · intro p hp
      rw [addTxLog_addTransaction] at hp
      rcases List.mem_append.mp hp with hl | hr
      · exact hasTx_addTransaction_mono _ _ (m3 p hl)
      · simp only [List.mem_singleton] at hr
        subst hr
        exact hasTx_addTransaction_self _ _ _
    constructor
    · intro p hp
      rw [addTxLog_addTransaction] at hp
      rcases List.mem_append.mp hp with hl | hr
      · rcases m4 p hl with hold | ⟨ha, hb, hc⟩
        · exact Or.inl hold
        · exact Or.inr ⟨ha, le_trans hb hnh, List.mem_append_left _ hc⟩
      · simp only [List.mem_singleton] at hr
        subst hr
        refine Or.inr ⟨?_, ?_, ?_⟩
        · simpa [htxid] using hnewH
        · simpa [htxid] using hnhH
        · simp [htxid]
    · intro cc x h
      exact hasTx_addTransaction_mono _ _ (m5 cc x h)

lemma insertDesc_perm (t : FioTx) (l : List FioTx) :
    (insertDesc t l).Perm (t :: l) := by
  induction l with
  | nil => exact List.Perm.refl _
  | cons u rest ih =>
    by_cases h : t.block_height ≤ u.block_height
    · simp only [insertDesc, if_pos h]
      exact (ih.cons u).trans (List.Perm.swap t u rest)
    · simp only [insertDesc, if_neg h]
      exact List.Perm.refl _

lemma sortTransfersDesc_perm (l : List FioTx) : (sortTransfersDesc l).Perm l := by
  induction l with
  | nil => exact List.Perm.refl _
  | cons t rest ih =>
    exact (insertDesc_perm t (sortTransfersDesc rest)).trans (ih.cons t)

lemma processPage_mid (H : String → Int) (s0 : EngineState)
    (hs0 : ∀ p ∈ s0.addTxLog, H p.2 ≤ watermark s0) (pk actor : String)
    (ts : List FioTx) :
    ∀ (i : Nat) (nh : Int) (st : EngineState) (seen : List String),
      Mid H s0 seen st nh →
      (∀ t ∈ ts, t.block_height = H t.transaction_id) →
      (seen ++ ts.map (fun t => t.transaction_id)).Nodup →
      Mid H s0 (seen ++ ts.map (fun t => t.transaction_id))
        (processPage pk actor ts i nh st).1 (processPage pk actor ts i nh st).2.1 := by
  induction ts with
  | nil =>
    intro i nh st seen hMid _ _
    simpa using hMid
  | cons t rest ih =>
    intro i nh st seen hMid hH hnd
    have hnotin : t.transaction_id ∉ seen := by
      intro hmem
      have hd := List.disjoint_of_nodup_append hnd
      exact hd hmem (by simp)
    have hstep := processTransaction_mid H s0 hs0 st pk actor t
      (hH t (by simp)) seen hnotin nh hMid
    have hnd' : ((seen ++ [t.transaction_id]) ++ rest.map (fun t => t.transaction_id)).Nodup := by
      rw [List.append_assoc]
      simpa using hnd
    have hsub : (seen ++ [t.transaction_id]) ++ rest.map (fun t => t.transaction_id) ⊆
        seen ++ (t :: rest).map (fun t => t.transaction_id) := by
      rw [List.append_assoc]
      simp
    simp only [processPage]
    by_cases hgt : (processTransaction st pk t actor).2 > nh
    · rw [if_pos hgt]
      rw [if_pos hgt] at hstep
      have hrec := ih (i + 1) (processTransaction st pk t actor).2
        (processTransaction st pk t actor).1 (seen ++ [t.transaction_id]) hstep
        (fun u hu => hH u (by simp [hu])) hnd'
      exact Mid_mono hsub (le_refl _) hrec
    · rw [if_neg hgt]
      rw [if_neg hgt] at hstep
      by_cases hfin : ((processTransaction st pk t actor).2 = nh ∧ i = 0) ∨
          (processTransaction st pk t actor).2 <
            (processTransaction st pk t actor).1.walletLocalData.otherData.highestTxHeight
      · rw [if_pos hfin]
        refine Mid_mono ?_ (le_refl _) hstep
        intro x hx
        rcases List.mem_append.mp hx with hl | hr
        · exact List.mem_append_left _ hl
        · simp only [List.mem_singleton] at hr
          subst hr
          simp
      · rw [if_neg hfin]
        have hrec := ih (i + 1) nh (processTransaction st pk t actor).1
          (seen ++ [t.transaction_id]) hstep
          (fun u hu => hH u (by simp [hu])) hnd'
        exact Mid_mono hsub (le_refl _) hrec

lemma transactionsWalk_mid (H : String → Int) (s0 : EngineState)
    (hs0 : ∀ p ∈ s0.addTxLog, H p.2 ≤ watermark s0) (pk actor : String)
    (pages : List (List FioTx)) :
    ∀ (pos nh : Int) (st : EngineState) (seen : List String),
      Mid H s0 seen st nh →
      (∀ page ∈ pages, ∀ t ∈ page, t.block_height = H t.transaction_id) →
      (seen ++ pages.flatten.map (fun t => t.transaction_id)).Nodup →
      Mid H s0 (seen ++ pages.flatten.map (fun t => t.transaction_id))
        (transactionsWalk pk actor pages pos nh st).1
        (transactionsWalk pk actor pages pos nh st).2.1 := by
  induction pages with
  | nil =>
    intro pos nh st seen hMid _ _
    simpa using hMid
  | cons page rest ih =>
    intro pos nh st seen hMid hH hnd
    have hjoin : (page :: rest).flatten.map (fun t => t.transaction_id) =
        page.map (fun t => t.transaction_id) ++
          rest.flatten.map (fun t => t.transaction_id) := by
      simp
    rw [hjoin] at hnd ⊢
    have hsortperm : ((sortTransfersDesc page).map (fun t => t.transaction_id)).Perm
        (page.map (fun t => t.transaction_id)) :=
      (sortTransfersDesc_perm page).map _
    by_cases hpos : pos < 0
    · simp only [transactionsWalk, if_pos hpos]
      exact Mid_mono (List.subset_append_left _ _) (le_refl _) hMid
    · simp only [transactionsWalk, if_neg hpos]
      by_cases hemp : (sortTransfersDesc page).isEmpty
      · rw [if_pos hemp]
        exact Mid_mono (List.subset_append_left _ _) (le_refl _) hMid
      · rw [if_neg hemp]
        have hndsorted : (seen ++ (sortTransfersDesc page).map
            (fun t => t.transaction_id)).Nodup := by
          have hnd1 : (seen ++ page.map (fun t => t.transaction_id)).Nodup := by
            refine List.Nodup.sublist ?_ hnd
            rw [← List.append_assoc]
            exact List.sublist_append_left _ _
          exact ((hsortperm.append_left seen).nodup_iff).mpr hnd1
        have hpage := processPage_mid H s0 hs0 pk actor (sortTransfersDesc page) 0 nh st
          seen hMid
          (fun u hu => hH page (by simp) u ((sortTransfersDesc_perm page).subset hu))
          hndsorted
        have hpagemono : Mid H s0 (seen ++ page.map (fun t => t.transaction_id))
            (processPage pk actor (sortTransfersDesc page) 0 nh st).1
            (processPage pk actor (sortTransfersDesc page) 0 nh st).2.1 := by
          refine Mid_mono ?_ (le_refl _) hpage
          intro x hx
          rcases List.mem_append.mp hx with hl | hr
          · exact List.mem_append_left _ hl
          · exact List.mem_append_right _ (hsortperm.subset hr)
        cases hfin : (processPage pk actor (sortTransfersDesc page) 0 nh st).2.2 with
        | true =>
          rw [if_pos rfl]
          refine Mid_mono ?_ (le_refl _) hpagemono
          intro x hx
          rcases List.mem_append.mp hx with hl | hr
          · exact List.mem_append_left _ hl
          · exact List.mem_append_right _ (List.mem_append_left _ hr)
        | false =>
          rw [if_neg Bool.false_ne_true]
          have hndrest : ((seen ++ page.map (fun t => t.transaction_id)) ++
              rest.flatten.map (fun t => t.transaction_id)).Nodup := by
            rw [List.append_assoc]
            exact hnd
          have hrec := ih (pos - 10)
            (processPage pk actor (sortTransfersDesc page) 0 nh st).2.1
            (processPage pk actor (sortTransfersDesc page) 0 nh st).1
            (seen ++ page.map (fun t => t.transaction_id)) hpagemono
            (fun pg hpg u hu => hH pg (by simp [hpg]) u hu) hndrest
          refine Mid_mono ?_ (le_refl _) hrec
          intro x hx
          rw [List.append_assoc] at hx
          exact hx

lemma checkTransactions_good (H : String → Int) (pk actor : String) (lastSeq : Int)
    (pages : List (List FioTx)) (st : EngineState)
    (hGood : GoodLog H st)
    (hH : ∀ page ∈ pages, ∀ t ∈ page, t.block_height = H t.transaction_id)
    (hD : (pages.flatten.map (fun t => t.transaction_id)).Nodup) :
    GoodLog H (checkTransactions pk actor lastSeq pages st) := by
  by_cases hseq : lastSeq = 0
  · rw [checkTransactions, if_pos hseq]
    exact hGood
  · have hMid0 : Mid H st [] st (watermark st) :=
      ⟨rfl, hGood.1, fun p hp => (hGood.2 p hp).1, fun p hp => Or.inl hp,
        fun _ _ h => h⟩
    have hw := transactionsWalk_mid H st (fun p hp => (hGood.2 p hp).2) pk actor
      pages lastSeq (watermark st) st [] hMid0 hH (by simpa using hD)
    have hwm := transactionsWalk_facts pk actor pages lastSeq (watermark st) st
    obtain ⟨m1, m2, m3, m4, _⟩ := hw
    unfold watermark at m1 m4 hwm
    have hGood2 : ∀ p ∈ st.addTxLog,
        H p.2 ≤ st.walletLocalData.otherData.highestTxHeight := by
      intro p hp
      have := (hGood.2 p hp).2
      unfold watermark at this
      exact this
    rw [checkTransactions]
    rw [if_neg hseq]
    by_cases hc : (transactionsWalk pk actor pages lastSeq
        st.walletLocalData.otherData.highestTxHeight st).2.1 >
        (transactionsWalk pk actor pages lastSeq
          st.walletLocalData.otherData.highestTxHeight
          st).1.walletLocalData.otherData.highestTxHeight
    · rw [if_pos hc]
      refine ⟨m2, fun p hp => ⟨?_, ?_⟩⟩
      · obtain ⟨u, hu, hx⟩ := m3 p hp
        exact ⟨u, hu, hx⟩
      · show H p.2 ≤ (transactionsWalk pk actor pages lastSeq
          st.walletLocalData.otherData.highestTxHeight st).2.1
        rcases m4 p hp with hold | ⟨_, hb, _⟩
        · have h1 := hGood2 p hold
          omega
        · exact hb
    · rw [if_neg hc]
      refine ⟨m2, fun p hp => ⟨m3 p hp, ?_⟩⟩
      show H p.2 ≤ (transactionsWalk pk actor pages lastSeq
        st.walletLocalData.otherData.highestTxHeight
        st).1.walletLocalData.otherData.highestTxHeight
      rcases m4 p hp with hold | ⟨_, hb, _⟩
      · have h1 := hGood2 p hold
        omega
      · omega

lemma runCycles_good (H : String → Int) (pk actor : String) :
    ∀ (cycles : List SyncCycle) (st : EngineState),
      GoodLog H st →
      (∀ c ∈ cycles, ∀ page ∈ c.pages, ∀ t ∈ page,
        t.block_height = H t.transaction_id) →
      (∀ c ∈ cycles, (c.pages.flatten.map (fun t => t.transaction_id)).Nodup) →
      GoodLog H (runCycles pk actor cycles st) := by
  intro cycles
  induction cycles with
  | nil => intro st hGood _ _; exact hGood
  | cons c rest ih =>
    intro st hGood hH hD
    exact ih _
      (checkTransactions_good H pk actor c.lastActionSeqNumber c.pages st hGood
        (hH c (by simp)) (hD c (by simp)))
      (fun c' hc' => hH c' (by simp [hc']))
      (fun c' hc' => hD c' (by simp [hc']))

/-- Claim C1: (a) processing a record at or below the watermark, or with an
unrecognized action kind, returns the record's height and changes no state;
(b) across any sequence of history-sync cycles in which each txid denotes a
fixed record height and no cycle's pages repeat a txid, `addTransaction` is
never invoked twice with the same (currencyCode, txid) pair. -/
theorem claim_C1 :
    (∀ (st : EngineState) (pk : String) (t : FioTx) (actor : String),
      (t.block_height ≤ watermark st ∨
        (t.action ≠ "trnsfiopubky" ∧ t.action ≠ "transfer")) →
      processTransaction st pk t actor = (st, t.block_height)) ∧
    (∀ (pk actor : String) (cycles : List SyncCycle) (st : EngineState)
      (H : String → Int),
      st.addTxLog = [] →
      (∀ c ∈ cycles, ∀ page ∈ c.pages, ∀ t ∈ page,
        t.block_height = H t.transaction_id) →
      (∀ c ∈ cycles, (c.pages.flatten.map (fun t => t.transaction_id)).Nodup) →
      (runCycles pk actor cycles st).addTxLog.Nodup) := by
  constructor
  · intro st pk t actor h
    rcases h with h | h
    · unfold watermark at h
      simp [processTransaction, h]
    · by_cases h1 : t.block_height ≤ st.walletLocalData.otherData.highestTxHeight
      · simp [processTransaction, h1]
      · simp [processTransaction, h1, h]
  · intro pk actor cycles st H hlog hH hD
    have hGood : GoodLog H st := by
      constructor
      · rw [hlog]; exact List.nodup_nil
      · intro p hp
        rw [hlog] at hp
        exact absurd hp (List.not_mem_nil p)
    exact (runCycles_good H pk actor cycles st hGood hH hD).1

/-- Claim C1 witness: both parts applied to concrete inputs — a record at
height 90 (below watermark 100) is skipped unchanged, and a two-cycle run over
the sample pages produces a duplicate-free addTransaction call log. -/
theorem claim_C1_witness :
    processTransaction stWm100 "pub" (sampleTx 90 "w") "act" =
      (stWm100, 90) ∧
    (runCycles "pub" "act"
      [⟨25, [[sampleTx 150 "a", sampleTx 140 "b"]]⟩,
       ⟨25, [[sampleTx 170 "x", sampleTx 160 "y"]]⟩] stWm100).addTxLog.Nodup := by
  constructor
  · exact claim_C1.1 stWm100 "pub" (sampleTx 90 "w") "act" (Or.inl (by decide))
  · exact claim_C1.2 "pub" "act"
      [⟨25, [[sampleTx 150 "a", sampleTx 140 "b"]]⟩,
       ⟨25, [[sampleTx 170 "x", sampleTx 160 "y"]]⟩] stWm100
      (fun txid => if txid = "a" then 150 else if txid = "b" then 140
        else if txid = "x" then 170 else 160)
      rfl (by decide) (by decide)
